import Mathlib

/-
  Verification development for the BetterBeam takeoff pipeline
  (src-tauri/src: scale.rs, measure.rs, map.rs, jobs.rs, raster.rs, main.rs).

  Modelling conventions (shallow embedding):
  * Rust `f32`/`f64` values are modelled as `ℚ` wherever the source only adds,
    multiplies, divides and compares them; square roots (`f32::sqrt`,
    `f64::sqrt`) are modelled with `Real.sqrt` over `ℝ`.  IEEE rounding,
    overflow to infinity and NaN payloads are not modelled; where the source
    could produce a NaN or infinity (e.g. parsing "inf"/"nan", a 0/0 mean on an
    empty image) the deviation is noted at the definition.
  * Rust `String` is modelled as `List Char`; byte indices of `str::find`
    become character indices (the two agree on ASCII input, which is all the
    repository's callers and the spec's examples use).
  * The asynchronous job pipeline of jobs.rs is modelled as the list of
    job-table updates (state writes and result writes) it performs, in program
    order; the document loader (pdf.rs / pdfium, an external collaborator) is
    an oracle parameter mapping the attempt number to its outcome.
-/

namespace SignX

set_option maxRecDepth 4000

set_option maxHeartbeats 1000000

/-! ## String helpers (Rust std semantics used by scale.rs) -/

/-- Index of the first occurrence of `needle` in `hay` (Rust `str::find`),
as a character index. -/
def findSub (needle : List Char) : List Char → Option ℕ
  | [] => if needle.isPrefixOf ([] : List Char) then some 0 else none
  | c :: tl =>
    if needle.isPrefixOf (c :: tl) then some 0
    else (findSub needle tl).map (fun i => i + 1)

/-- Rust `str::trim`: remove whitespace from both ends. -/
def trimWs (s : List Char) : List Char :=
  ((s.dropWhile Char.isWhitespace).reverse.dropWhile Char.isWhitespace).reverse

/-- Rust `str::trim_matches(['"', ' '])`: strip any run of double-quote or
space characters from both ends. -/
def trimQuoteSpace (s : List Char) : List Char :=
  let p := fun c => c = '"' ∨ c = ' '
  ((s.dropWhile p).reverse.dropWhile p).reverse

/-- Numeric value of a list of ASCII digits (most significant first). -/
def digitsVal (ds : List Char) : ℕ :=
  ds.foldl (fun a c => 10 * a + (c.toNat - '0'.toNat)) 0

/-- Apply an optional exponent-digit suffix to mantissa `m`:
the remaining characters must be a nonempty digit run with nothing after. -/
def expDigits (m : ℚ) (esign : ℤ) (r : List Char) : Option ℚ :=
  let ds := r.takeWhile Char.isDigit
  let rest := r.dropWhile Char.isDigit
  if ds.isEmpty ∨ ¬ rest.isEmpty then none
  else some (m * (10 : ℚ) ^ (esign * (digitsVal ds : ℤ)))

/-- Parse the optional `e`/`E` exponent tail of a float literal; any other
trailing characters make the whole parse fail (Rust `str::parse` consumes the
entire string). -/
def parseTail (m : ℚ) : List Char → Option ℚ
  | [] => some m
  | 'e' :: r =>
    match r with
    | '+' :: r2 => expDigits m 1 r2
    | '-' :: r2 => expDigits m (-1) r2
    | _ => expDigits m 1 r
  | 'E' :: r =>
    match r with
    | '+' :: r2 => expDigits m 1 r2
    | '-' :: r2 => expDigits m (-1) r2
    | _ => expDigits m 1 r
  | _ => none

/-- Unsigned part of Rust `str::parse::<f32>`:
`Digit+ | Digit+ '.' Digit* | Digit* '.' Digit+`, then optional exponent.
The special spellings `inf`, `infinity` and `nan` (whose values are not
rationals) are modelled as parse failures; no claim exercises them. -/
def parseF32Core (s : List Char) : Option ℚ :=
  let ip := s.takeWhile Char.isDigit
  let r1 := s.dropWhile Char.isDigit
  match r1 with
  | '.' :: r2 =>
    let fp := r2.takeWhile Char.isDigit
    let r3 := r2.dropWhile Char.isDigit
    if ip.isEmpty ∧ fp.isEmpty then none
    else parseTail ((digitsVal ip : ℚ) + (digitsVal fp : ℚ) / (10 : ℚ) ^ fp.length) r3
  | _ => if ip.isEmpty then none else parseTail (digitsVal ip : ℚ) r1

/-- Rust `str::parse::<f32>` (value modelled exactly in `ℚ`, without rounding
to binary32): optional sign, then `parseF32Core`. -/
def parseF32 (s : List Char) : Option ℚ :=
  match s with
  | '+' :: r => parseF32Core r
  | '-' :: r => (parseF32Core r).map (fun q => -q)
  | _ => parseF32Core s

/-! ## Scale parser (scale.rs, `infer_scale_from_text`) -/

/-- First block of scale.rs `infer_scale_from_text` ("handle metric 1:100,
1:50"): find the first "1:", take the maximal ASCII-digit run immediately
following, parse it, and require a positive value; result `("m", 1/n)`. -/
def metricScale (t : List Char) : Option (String × ℚ) :=
  match findSub ['1', ':'] t with
  | none => none
  | some pos =>
    let rest := t.drop (pos + 2)
    let num := rest.takeWhile Char.isDigit
    match parseF32 num with
    | some n => if 0 < n then some ("m", 1 / n) else none
    | none => none

/-- Second block of scale.rs `infer_scale_from_text` ("handle imperial like
1/8\" = 1\x27-0\""): take the text before the first '=', trim it, split at
its first '/', parse the trimmed numerator and the quote/space-trimmed
denominator, and require a positive denominator (only); result
`("ft", (na/nb) * (1/12))`. -/
def archScale (t : List Char) : Option (String × ℚ) :=
  match findSub ['='] t with
  | none => none
  | some eq =>
    let left := trimWs (t.take eq)
    match findSub ['/'] left with
    | none => none
    | some slash =>
      let a := left.take slash
      let b := left.drop (slash + 1)
      match parseF32 (trimWs a), parseF32 (trimQuoteSpace b) with
      | some na, some nb =>
        if 0 < nb then some ("ft", (na / nb) * (1 / 12)) else none
      | _, _ => none

/-- scale.rs `infer_scale_from_text`: lowercase the text; first try the metric
ratio grammar, then (on any failure of that block, including a zero parsed
value) the architectural grammar. -/
def infer_scale_from_text (text : String) : Option (String × ℚ) :=
  let t := text.toList.map Char.toLower
  match metricScale t with
  | some r => some r
  | none => archScale t

/-! ## Geometry kernel (measure.rs) -/

/-- One Euclidean segment length, `((x2-x1)^2 + (y2-y1)^2).sqrt()`. -/
noncomputable def euclid (p q : ℚ × ℚ) : ℝ :=
  Real.sqrt (((q.1 - p.1 : ℚ) : ℝ) ^ 2 + ((q.2 - p.2 : ℚ) : ℝ) ^ 2)

/-- Sum of `f` over consecutive pairs of a list (Rust `slice::windows(2)`). -/
def adjSum {M : Type} [AddCommMonoid M] (f : ℚ × ℚ → ℚ × ℚ → M) :
    List (ℚ × ℚ) → M
  | a :: b :: rest => f a b + adjSum f (b :: rest)
  | _ => 0

/-- measure.rs `length_px`: sum of Euclidean distances between consecutive
points (the source accumulates in `f64`; we model the exact real value). -/
noncomputable def length_px (ps : List (ℚ × ℚ)) : ℝ :=
  adjSum euclid ps

/-- The shoelace cross term `x1*y2 - x2*y1` of measure.rs `area_px`. -/
def cross (p q : ℚ × ℚ) : ℚ :=
  p.1 * q.2 - q.1 * p.2

/-- The loop of measure.rs `area_px`: `for i in 0..n` accumulate
`cross points[i] points[(i+1) % n]`. -/
def shoelaceSum (ps : List (ℚ × ℚ)) : ℚ :=
  ∑ i ∈ Finset.range ps.length,
    cross (ps.getD i (0, 0)) (ps.getD ((i + 1) % ps.length) (0, 0))

/-- measure.rs `area_px`: 0 for fewer than 3 points, otherwise
`|shoelace sum| * 0.5`. -/
def area_px (ps : List (ℚ × ℚ)) : ℚ :=
  if ps.length < 3 then 0 else |shoelaceSum ps| * (1 / 2)

/-! ## Detections and mapping (detect.rs, map.rs) -/

/-- detect.rs `Det`: an axis-aligned detection box with label and score. -/
structure Det where
  x : ℚ
  y : ℚ
  w : ℚ
  h : ℚ
  label : String
  score : ℚ
deriving DecidableEq, Repr

/-- map.rs `MappingSummary`; `symbols` models the `serde_json::Value` tally as
an association list (the source only ever builds the empty object). -/
structure MappingSummary where
  symbols : List (String × ℕ)
  lineal_feet : ℚ
  area_sqft : ℚ
deriving DecidableEq, Repr

/-- map.rs `LineItem`. -/
structure LineItem where
  sku : String
  qty : ℕ
  material : String
  finish : String
deriving DecidableEq, Repr

/-- map.rs `MappingResult`. -/
structure MappingResult where
  summary : MappingSummary
  items : List LineItem
deriving DecidableEq, Repr

/-- map.rs `map_to_line_items`: ignores the detections, passes the two totals
through into the summary with an empty symbol tally, and returns no items. -/
def map_to_line_items (_dets : List Det) (lineal area : ℚ) : MappingResult :=
  { summary := { symbols := [], lineal_feet := lineal, area_sqft := area },
    items := [] }

/-! ## Job orchestrator (jobs.rs) -/

/-- jobs.rs `JobState`. -/
inductive JobState where
  | pending
  | running (stage : String) (pct : ℕ)
  | succeeded
  | failed (reason : String)
deriving DecidableEq, Repr

/-- The result payload built by the `json!` block of `start_auto_takeoff`
(logical fields of the serialized object). -/
structure TakeoffResult where
  pdf_path : String
  pages : ℕ
  units_per_pixel : ℚ
  segments : ℕ
  summary : MappingSummary
  items : List LineItem
deriving DecidableEq, Repr

/-- One job-table update performed by the spawned pipeline task:
either `set_state` or `set_result`. -/
inductive JobEvent where
  | setState (s : JobState)
  | setResult (r : TakeoffResult)
deriving DecidableEq, Repr

/-- The spawned pipeline body of jobs.rs `start_auto_takeoff`, as the ordered
list of job-table updates it performs.  `load` is the oracle for
`pdf::page_count_from_path` (an external pdfium call), indexed by the number
of the attempt, so that the model can express how many times the pipeline
invokes the loader: the source invokes it exactly once (`load 0`). -/
def pipelineEvents (load : ℕ → Except String ℕ) (pdf_path : String) :
    List JobEvent :=
  match load 0 with
  | .error e => [.setState (.running "open" 5), .setState (.failed e)]
  | .ok page_count =>
    let total_line_segments : ℕ := 0
    let ocr_text : String := ""
    let inferred := infer_scale_from_text ocr_text
    let units_per_pixel : ℚ := (inferred.map Prod.snd).getD 1
    let detected : List Det := []
    let total_lineal : ℚ := 0
    let total_area : ℚ := 0
    let mapping := map_to_line_items detected total_lineal total_area
    [ .setState (.running "open" 5),
      .setState (.running "tile-pyramid" 15),
      .setState (.running "vectors" 30),
      .setState (.running "ocr" 45),
      .setState (.running "scale" 55),
      .setState (.running "detect" 70),
      .setState (.running "measure" 82),
      .setState (.running "map" 92),
      .setResult { pdf_path := pdf_path, pages := page_count,
                   units_per_pixel := units_per_pixel,
                   segments := total_line_segments,
                   summary := mapping.summary, items := mapping.items },
      .setState .succeeded ]

/-- The stage names of the `Running` updates of a trace, in order. -/
def runningStages (tr : List JobEvent) : List String :=
  tr.filterMap fun e =>
    match e with
    | .setState (.running st _) => some st
    | _ => none

/-- The percentages of the `Running` updates of a trace, in order. -/
def runningPcts (tr : List JobEvent) : List ℕ :=
  tr.filterMap fun e =>
    match e with
    | .setState (.running _ pct) => some pct
    | _ => none

/-- The result payloads attached by a trace, in order. -/
def resultsOf (tr : List JobEvent) : List TakeoffResult :=
  tr.filterMap fun e =>
    match e with
    | .setResult r => some r
    | _ => none

/-- The states written by a trace, in order. -/
def statesOf (tr : List JobEvent) : List JobState :=
  tr.filterMap fun e =>
    match e with
    | .setState s => some s
    | _ => none

/-- The fixed stage sequence of the pipeline (spec section 4.6). -/
def fixedStages : List String :=
  ["open", "tile-pyramid", "vectors", "ocr", "scale", "detect", "measure", "map"]

/-- jobs.rs `Job`: id, state, optional serialized result. -/
structure Job where
  id : ℕ
  state : JobState
  result_json : Option String
deriving DecidableEq, Repr

/-- The value returned by jobs.rs `job_status`: either the serialized job or
the distinguished not-found object `json!({"error":"not_found"})`. -/
inductive StatusValue where
  | jobValue (j : Job)
  | notFound
deriving DecidableEq, Repr

/-- jobs.rs `job_status`: lock the table, look the id up, serialize the job or
report not-found.  The table is returned unchanged: `HashMap::get` does not
mutate. -/
def job_status (tbl : List (ℕ × Job)) (id : ℕ) :
    StatusValue × List (ℕ × Job) :=
  match tbl.lookup id with
  | some j => (.jobValue j, tbl)
  | none => (.notFound, tbl)

/-- jobs.rs `job_result`: the stored result string, defaulting to the empty
object when the id is unknown or no result is attached; table unchanged. -/
def job_result (tbl : List (ℕ × Job)) (id : ℕ) :
    String × List (ℕ × Job) :=
  (((tbl.lookup id).bind Job.result_json).getD "\x7b\x7d", tbl)

/-! ## Retry helper and adaptive tuning (raster.rs) -/

/-- Loop of raster.rs `retry_with_backoff`, returning the outcome and the list
of sleep durations (in ms) performed, in order.  `f` is indexed by the value
of `attempts` at the time of the call.  On an error the source tests
`attempts < max_retries`, increments `attempts` and then sleeps
`50 * (1 << attempts)` ms; here `budget = max_retries - attempts` carries the
same test (`attempts < max_retries` iff `budget > 0`) as the structural
recursion measure. -/
def retryGo {T : Type} (f : ℕ → Except String T) :
    ℕ → ℕ → List ℕ → Except String T × List ℕ
  | attempts, budget, delays =>
    match f attempts with
    | .ok v => (.ok v, delays)
    | .error e =>
      match budget with
      | 0 => (.error e, delays)
      | b + 1 => retryGo f (attempts + 1) b (delays ++ [50 * 2 ^ (attempts + 1)])

/-- raster.rs `retry_with_backoff` (starting with `attempts = 0` and no sleeps
performed yet). -/
def retry_with_backoff {T : Type} (f : ℕ → Except String T)
    (max_retries : ℕ) : Except String T × List ℕ :=
  retryGo f 0 max_retries []

/-- raster.rs placeholder `GrayImage`: width and height only. -/
structure GrayImage where
  w : ℕ
  h : ℕ
deriving DecidableEq, Repr

/-- raster.rs placeholder `GrayImage::pixels`: always the single pixel `[0]`,
regardless of the stored dimensions (`vec![[0u8;1]].into_iter()`). -/
def GrayImage.pixels (_ : GrayImage) : List ℕ := [0]

/-- raster.rs `grayscale_stats`: mean and standard deviation over `pixels()`,
with `n = width * height`.  Deviation note: with `n = 0` the source's
`sum / n` is an IEEE NaN and `(sum2/n - mean^2).max(0.0)` resolves to `0.0`
(Rust `f64::max` discards a NaN operand); in `ℚ` division by zero is `0`, and
the variance is likewise `0`, so the returned deviation agrees. -/
noncomputable def grayscale_stats (g : GrayImage) : ℚ × ℝ :=
  let sum : ℚ := (g.pixels.map (fun v => (v : ℚ))).sum
  let sum2 : ℚ := (g.pixels.map (fun v => (v : ℚ) ^ 2)).sum
  let n : ℕ := g.w * g.h
  let mean : ℚ := sum / n
  let var : ℚ := max (sum2 / n - mean ^ 2) 0
  (mean, Real.sqrt (var : ℝ))

section AutoTune

open Classical

/-- raster.rs `auto_tune_params`: contrast factor from the standard deviation,
raw low/high thresholds, truncating cast of `30.0 * factor` to `u32`
(`(30.0 * factor) as u32`; the factor is positive so the cast is a floor),
then the final clamps `(low.max(1.0), high.max(low + 1.0), vote.max(15))` —
note the `low + 1.0` uses the raw, unclamped `low`. -/
noncomputable def auto_tune_params (g : GrayImage) (otsu : ℚ) : ℚ × ℚ × ℕ :=
  let std := (grayscale_stats g).2
  let factor : ℚ := if (50 : ℝ) < std then 0.85 else 1
  let low := otsu * 0.5 * factor
  let high := otsu * 1.2 * factor
  let vote : ℕ := (30 * factor : ℚ).floor.toNat
  (max low 1, max high (low + 1), max vote 15)

end AutoTune

/-! ## Raster tiler (main.rs, `prefetch_view` loop) -/

/-- One emitted tile rectangle of `prefetch_view`. -/
structure TileRect where
  tx : ℚ
  ty : ℚ
  tw : ℚ
  th : ℚ
deriving DecidableEq, Repr

/-- The origins visited by a `while c < c1 { ...; c += step }` loop starting
at `c0`.  The source's loop runs with `step = max(tile - 64, 256) > 0` always;
the `0 < step` guard only makes the model total on the unreachable
nonpositive-step inputs. -/
def scanStarts (c0 c1 step : ℚ) : List ℚ :=
  if h : 0 < step ∧ c0 < c1 then c0 :: scanStarts (c0 + step) c1 step else []
termination_by (⌈(c1 - c0) / step⌉).toNat
decreasing_by
  obtain ⟨hs, hc⟩ := h
  have h1 : c1 - (c0 + step) = (c1 - c0) - step := by ring
  have h2 : ((c1 - c0) - step) / step = (c1 - c0) / step - 1 := by
    rw [sub_div, div_self hs.ne']
  have hq : 0 < (c1 - c0) / step := div_pos (by linarith) hs
  have h3 : 0 < ⌈(c1 - c0) / step⌉ := Int.ceil_pos.mpr hq
  rw [h1, h2, Int.ceil_sub_one]
  omega

/-- main.rs `prefetch_view` tiling loop: clamp the tile size to `[256, 1024]`,
step `max(tile - 64, 256)`, outer loop over rows (`ty`), inner loop over
columns (`tx`), each tile's width/height clamped to the remaining extent
(`tile.min(x1 - tx).max(0.0)`). -/
def prefetch_tiles (x0 y0 x1 y1 tile : ℚ) : List TileRect :=
  let t := min (max tile 256) 1024
  let step := max (t - 64) 256
  (scanStarts y0 y1 step).flatMap fun ty =>
    (scanStarts x0 x1 step).map fun tx =>
      { tx := tx, ty := ty,
        tw := max (min t (x1 - tx)) 0,
        th := max (min t (y1 - ty)) 0 }

/-- Raster-scan ordering on tiles: strictly later row, or same row and
strictly later column. -/
def rasterOrder (a b : TileRect) : Prop :=
  a.ty < b.ty ∨ (a.ty = b.ty ∧ a.tx < b.tx)

/-- The nine tiles the loop emits for the region `[0,1000) × [0,1000)` with
requested tile 512 (clamped tile 512, step `max(512-64, 256) = 448`). -/
def tiles1000 : List TileRect :=
  [ ⟨0, 0, 512, 512⟩, ⟨448, 0, 512, 512⟩, ⟨896, 0, 104, 512⟩,
    ⟨0, 448, 512, 512⟩, ⟨448, 448, 512, 512⟩, ⟨896, 448, 104, 512⟩,
    ⟨0, 896, 512, 104⟩, ⟨448, 896, 512, 104⟩, ⟨896, 896, 104, 104⟩ ]

/-! ## Lemmas about the geometry kernel -/

/-- Euclidean segment length is symmetric in its endpoints. -/
lemma euclid_comm (p q : ℚ × ℚ) : euclid q p = euclid p q := by
  unfold euclid
  congr 1
  push_cast
  ring

/-- The shoelace cross term is antisymmetric. -/
lemma cross_swap (p q : ℚ × ℚ) : cross q p = - cross p q := by
  unfold cross
  ring

/-- Appending one point adds one last segment contribution. -/
lemma adjSum_append_last {M : Type} [AddCommMonoid M]
    (f : ℚ × ℚ → ℚ × ℚ → M) :
    ∀ (l : List (ℚ × ℚ)) (x : ℚ × ℚ),
      adjSum f (l ++ [x])
        = adjSum f l + (match l.getLast? with | none => 0 | some y => f y x)
  | [], x => by simp [adjSum]
  | [a], x => by simp [adjSum]
  | a :: b :: l, x => by
    have ih := adjSum_append_last f (b :: l) x
    simp only [List.cons_append] at ih ⊢
    rw [adjSum, adjSum, ih, List.getLast?_cons_cons, add_assoc]

/-- Summing over consecutive pairs of the reversed list swaps the pair
arguments. -/
lemma adjSum_reverse {M : Type} [AddCommMonoid M]
    (f : ℚ × ℚ → ℚ × ℚ → M) :
    ∀ l : List (ℚ × ℚ), adjSum f l.reverse = adjSum (fun a b => f b a) l
  | [] => by simp [adjSum]
  | a :: l => by
    have ih := adjSum_reverse f l
    rw [List.reverse_cons, adjSum_append_last, ih, List.getLast?_reverse]
    cases l with
    | nil => simp [adjSum]
    | cons b m =>
      simp only [List.head?_cons]
      rw [adjSum]
      exact add_comm _ _

/-- `getD` on a reversed list reads the mirrored index. -/
lemma getD_reverse {α : Type} (l : List α) (i : ℕ) (h : i < l.length)
    (d : α) : l.reverse.getD i d = l.getD (l.length - 1 - i) d := by
  rw [List.getD_eq_getElem?_getD, List.getD_eq_getElem?_getD,
    List.getElem?_reverse h]

/-- Reversing the point order negates the shoelace sum. -/
lemma shoelace_reverse (ps : List (ℚ × ℚ)) :
    shoelaceSum ps.reverse = - shoelaceSum ps := by
  rcases Nat.eq_zero_or_pos ps.length with h0 | hn0
  · have h : ps = [] := List.length_eq_zero.mp h0
    subst h
    simp [shoelaceSum]
  · unfold shoelaceSum
    rw [List.length_reverse]
    rw [← Finset.sum_neg_distrib]
    refine Finset.sum_nbij'
      (fun i => if i = ps.length - 1 then ps.length - 1 else ps.length - 2 - i)
      (fun i => if i = ps.length - 1 then ps.length - 1 else ps.length - 2 - i)
      ?_ ?_ ?_ ?_ ?_
    · intro a ha
      simp only [Finset.mem_range] at ha ⊢
      split <;> omega
    · intro a ha
      simp only [Finset.mem_range] at ha ⊢
      split <;> omega
    · intro a ha
      simp only [Finset.mem_range] at ha
      dsimp only
      rcases eq_or_ne a (ps.length - 1) with h1 | h1
      · simp [h1]
      · rw [if_neg h1, if_neg (by omega)]
        omega
    · intro a ha
      simp only [Finset.mem_range] at ha
      dsimp only
      rcases eq_or_ne a (ps.length - 1) with h1 | h1
      · simp [h1]
      · rw [if_neg h1, if_neg (by omega)]
        omega
    · intro i hi
      simp only [Finset.mem_range] at hi
      dsimp only
      rcases eq_or_ne i (ps.length - 1) with h1 | h1
      · subst h1
        rw [if_pos rfl]
        have e1 : (ps.length - 1 + 1) % ps.length = 0 := by
          rw [(show ps.length - 1 + 1 = ps.length by omega), Nat.mod_self]
        rw [e1]
        rw [getD_reverse ps (ps.length - 1) (by omega),
          getD_reverse ps 0 (by omega)]
        rw [(show ps.length - 1 - (ps.length - 1) = 0 by omega)]
        rw [(show ps.length - 1 - 0 = ps.length - 1 by omega)]
        exact cross_swap _ _
      · rw [if_neg h1]
        have e1 : (i + 1) % ps.length = i + 1 := Nat.mod_eq_of_lt (by omega)
        have e2 : (ps.length - 2 - i + 1) % ps.length = ps.length - 1 - i := by
          rw [(show ps.length - 2 - i + 1 = ps.length - 1 - i by omega),
            Nat.mod_eq_of_lt (by omega)]
        rw [e1, e2]
        rw [getD_reverse ps i (by omega), getD_reverse ps (i + 1) (by omega)]
        rw [(show ps.length - 1 - (i + 1) = ps.length - 2 - i by omega)]
        exact cross_swap _ _

/-- Reversing the point order: the two loop sums run the segments in the
mirrored order, so both totals are preserved (the shoelace sum flips sign,
the absolute value does not). -/
lemma area_px_reverse (ps : List (ℚ × ℚ)) : area_px ps.reverse = area_px ps := by
  unfold area_px
  rw [List.length_reverse, shoelace_reverse, abs_neg]

/-- `length_px` is invariant under reversal. -/
lemma length_px_reverse (ps : List (ℚ × ℚ)) :
    length_px ps.reverse = length_px ps := by
  unfold length_px
  rw [adjSum_reverse]
  congr 1
  funext a b
  exact euclid_comm a b

/-! ## Claim theorems: geometry kernel -/

/-- C7: `length_px` is the double-precision sum of Euclidean distances of
consecutive points and is 0 for fewer than 2 points; `area_px` is the
absolute value of half the shoelace sum over the closed polygon (wrapping
last to first, so the caller need not close it) and is 0 for fewer than
3 points; the unit square has area 1 whether or not the caller closes it. -/
theorem C7_geometry_kernel :
    (∀ ps : List (ℚ × ℚ), ps.length < 2 → length_px ps = 0) ∧
    (∀ (p q : ℚ × ℚ) (rest : List (ℚ × ℚ)),
      length_px (p :: q :: rest) = euclid p q + length_px (q :: rest)) ∧
    (∀ ps : List (ℚ × ℚ), ps.length < 3 → area_px ps = 0) ∧
    area_px [(0, 0), (1, 0), (1, 1), (0, 1)] = 1 ∧
    area_px [(0, 0), (1, 0), (1, 1), (0, 1), (0, 0)] = 1 := by
  refine ⟨?_, ?_, ?_,
    by norm_num [area_px, shoelaceSum, cross, Finset.sum_range_succ,
      List.getD_cons_zero, List.getD_cons_succ],
    by norm_num [area_px, shoelaceSum, cross, Finset.sum_range_succ,
      List.getD_cons_zero, List.getD_cons_succ]⟩
  · intro ps h
    match ps, h with
    | [], _ => simp [length_px, adjSum]
    | [p], _ => simp [length_px, adjSum]
  · intro p q rest
    rfl
  · intro ps h
    rw [area_px, if_pos h]

/-- Witness for C7 at concrete short inputs. -/
theorem C7_geometry_kernel_witness :
    length_px [((3 : ℚ), (4 : ℚ))] = 0 ∧
    area_px [((0 : ℚ), (0 : ℚ)), ((2 : ℚ), (5 : ℚ))] = 0 :=
  ⟨C7_geometry_kernel.1 [(3, 4)] (by decide),
   C7_geometry_kernel.2.2.1 [(0, 0), (2, 5)] (by decide)⟩

/-- C8: both `length_px` and `area_px` are invariant under reversing the
point sequence (the signed shoelace sum flips sign, the returned magnitude
does not). -/
theorem C8_reverse_invariance (ps : List (ℚ × ℚ)) :
    length_px ps.reverse = length_px ps ∧
    area_px ps.reverse = area_px ps ∧
    shoelaceSum ps.reverse = - shoelaceSum ps :=
  ⟨length_px_reverse ps, area_px_reverse ps, shoelace_reverse ps⟩

/-! ## Lemmas and claim theorems: scale parser -/

/-- A successful metric-grammar parse yields unit "m" and a strictly positive
scale. -/
lemma metricScale_some (t : List Char) (u : String) (v : ℚ)
    (h : metricScale t = some (u, v)) : u = "m" ∧ 0 < v := by
  unfold metricScale at h
  split at h
  · exact absurd h (by simp)
  · try dsimp only at h
    split at h
    · split at h
      · rename_i n hparse hn
        rw [Option.some.injEq, Prod.mk.injEq] at h
        refine ⟨h.1.symm, ?_⟩
        rw [← h.2]
        exact one_div_pos.mpr hn
      · exact absurd h (by simp)
    · exact absurd h (by simp)

/-- A successful architectural-grammar parse yields unit "ft" and a value of
the form `(a/b) * (1/12)` with positive denominator `b`; nothing constrains
the numerator's sign. -/
lemma archScale_some (t : List Char) (u : String) (v : ℚ)
    (h : archScale t = some (u, v)) :
    u = "ft" ∧ ∃ a b : ℚ, 0 < b ∧ v = (a / b) * (1 / 12) := by
  unfold archScale at h
  split at h
  · exact absurd h (by simp)
  · try dsimp only at h
    split at h
    · exact absurd h (by simp)
    · try dsimp only at h
      split at h
      · split at h
        · rename_i na nb hpa hpb hnb
          rw [Option.some.injEq, Prod.mk.injEq] at h
          exact ⟨h.1.symm, na, nb, hnb, h.2.symm⟩
        · exact absurd h (by simp)
      · exact absurd h (by simp)

/-- C1 (amended): every scale the parser returns is either a metric result
`("m", v)` with `v > 0`, or an architectural result `("ft", (a/b)*(1/12))`
whose denominator `b` is positive but whose numerator `a` — hence the
returned scale — may be zero or negative: the source checks `nb > 0.0` only. -/
theorem C1_scale_contract (s : String) (u : String) (v : ℚ)
    (h : infer_scale_from_text s = some (u, v)) :
    (u = "m" ∧ 0 < v) ∨
    (u = "ft" ∧ ∃ a b : ℚ, 0 < b ∧ v = (a / b) * (1 / 12)) := by
  unfold infer_scale_from_text at h
  dsimp only at h
  rcases hm : metricScale (s.toList.map Char.toLower) with _ | r
  · rw [hm] at h
    exact Or.inr (archScale_some _ _ _ h)
  · rw [hm] at h
    rw [Option.some.injEq] at h
    subst h
    exact Or.inl (metricScale_some _ _ _ hm)

/-- Witness for C1 (amended) at the spec's own example "Scale 1:100". -/
theorem C1_scale_contract_witness :
    ("m" = "m" ∧ (0 : ℚ) < 1 / 100) ∨
    ("m" = "ft" ∧ ∃ a b : ℚ, 0 < b ∧ (1 / 100 : ℚ) = (a / b) * (1 / 12)) :=
  C1_scale_contract "Scale 1:100" "m" (1 / 100)
    (by simp [infer_scale_from_text, metricScale, archScale, findSub, trimWs,
      trimQuoteSpace, parseF32, parseF32Core, parseTail, digitsVal])

/-- C1 counterexample: the claim requires both parsed numbers of the
architectural form to be positive and every returned scale to be strictly
positive, but the source only tests the denominator, so a negative numerator
is accepted and produces a negative units-per-pixel. -/
theorem C1_scale_counterexample :
    infer_scale_from_text "-1/8 = 1" = some ("ft", -(1 / 96)) ∧
    ¬ (0 < (-(1 / 96) : ℚ)) := by
  constructor
  · simp [infer_scale_from_text, metricScale, archScale, findSub, trimWs,
      trimQuoteSpace, parseF32, parseF32Core, parseTail, digitsVal]
    norm_num
  · norm_num

/-! ## Lemmas and claim theorems: job pipeline and retry -/

/-- The stubbed OCR text is empty and carries no scale annotation. -/
lemma infer_scale_empty : infer_scale_from_text "" = none := by
  simp [infer_scale_from_text, metricScale, archScale, findSub]

/-- With an always-failing operation, the retry loop exhausts its budget,
sleeping `50 * 2 ^ (attempts + 1)` ms after each failure. -/
lemma retryGo_const_error {T : Type} (e : String) :
    ∀ (budget attempts : ℕ) (ds : List ℕ),
      retryGo (fun _ => (.error e : Except String T)) attempts budget ds
        = (.error e,
           ds ++ (List.range budget).map (fun k => 50 * 2 ^ (attempts + k + 1)))
  | 0, attempts, ds => by simp [retryGo]
  | b + 1, attempts, ds => by
    have ih := retryGo_const_error (T := T) e b (attempts + 1)
      (ds ++ [50 * 2 ^ (attempts + 1)])
    rw [retryGo]
    dsimp only
    rw [ih, List.append_assoc, List.singleton_append,
      List.range_succ_eq_map, List.map_cons, List.map_map]
    have hfun : ((fun k => 50 * 2 ^ (attempts + k + 1)) ∘ Nat.succ)
        = (fun k => 50 * 2 ^ (attempts + 1 + k + 1)) := by
      funext k
      show 50 * 2 ^ (attempts + (k + 1) + 1) = 50 * 2 ^ (attempts + 1 + k + 1)
      have h2 : attempts + (k + 1) + 1 = attempts + 1 + k + 1 := by omega
      rw [h2]
    rw [hfun]

/-- C2 (amended): the pipeline does not retry document loading — a single
loader failure is immediately recorded as the terminal failure reason; the
(unused) `retry_with_backoff` helper sleeps `50 * 2^k` ms before the k-th
retry with k starting at 1 (so 100 ms before the first retry, doubling
thereafter), and performs no sleep when the first call succeeds. -/
theorem C2_loading_behavior :
    (∀ (load : ℕ → Except String ℕ) (path e : String),
      load 0 = .error e →
      pipelineEvents load path
        = [.setState (.running "open" 5), .setState (.failed e)]) ∧
    (∀ (e : String) (n : ℕ),
      retry_with_backoff (fun _ => (.error e : Except String ℕ)) n
        = (.error e, (List.range n).map (fun k => 50 * 2 ^ (k + 1)))) ∧
    (∀ (f : ℕ → Except String ℕ) (n v : ℕ), f 0 = .ok v →
      retry_with_backoff f n = (.ok v, [])) := by
  refine ⟨?_, ?_, ?_⟩
  · intro load path e h
    simp [pipelineEvents, h]
  · intro e n
    have h := retryGo_const_error (T := ℕ) e n 0 []
    rw [retry_with_backoff, h]
    simp
  · intro f n v h
    rw [retry_with_backoff, retryGo, h]

/-- Witness for C2 (amended) at concrete inputs. -/
theorem C2_loading_behavior_witness :
    pipelineEvents (fun _ => .error "boom") "x.pdf"
      = [.setState (.running "open" 5), .setState (.failed "boom")] ∧
    retry_with_backoff (fun _ => (.error "io" : Except String ℕ)) 2
      = (.error "io", [100, 200]) ∧
    retry_with_backoff (fun _ => (.ok 7 : Except String ℕ)) 5 = (.ok 7, []) := by
  refine ⟨C2_loading_behavior.1 _ "x.pdf" "boom" rfl, ?_, ?_⟩
  · have h := C2_loading_behavior.2.1 "io" 2
    simpa using h
  · exact C2_loading_behavior.2.2 _ 5 7 rfl

/-- C2 counterexample: a loader that fails transiently (first call fails,
second would succeed) is not retried — the job fails terminally — and the
unused backoff helper's delay before the first retry is 100 ms, not 50 ms. -/
theorem C2_no_retry_counterexample :
    pipelineEvents (fun k => if k = 0 then .error "transient" else .ok 1)
        "doc.pdf"
      = [.setState (.running "open" 5), .setState (.failed "transient")] ∧
    (retry_with_backoff (fun _ => (.error "io" : Except String ℕ)) 3).2
      = [100, 200, 400] ∧
    (100 : ℕ) ≠ 50 := by
  refine ⟨by simp [pipelineEvents], ?_, by decide⟩
  have h := retryGo_const_error (T := ℕ) "io" 3 0 []
  rw [retry_with_backoff, h]
  simp
  decide

/-- C4: from the initial Pending state, Running updates carry stage names
forming a prefix of the fixed sequence open, tile-pyramid, vectors, ocr,
scale, detect, measure, map, with non-decreasing percentages; on success the
result payload is attached exactly once, immediately before the single
terminal transition to Succeeded. -/
theorem C4_pipeline_order (load : ℕ → Except String ℕ) (path : String) :
    (runningStages (pipelineEvents load path) <+: fixedStages) ∧
    List.Chain' (fun a b => a ≤ b) (runningPcts (pipelineEvents load path)) ∧
    (∀ n, load 0 = .ok n →
      pipelineEvents load path =
        [ .setState (.running "open" 5),
          .setState (.running "tile-pyramid" 15),
          .setState (.running "vectors" 30),
          .setState (.running "ocr" 45),
          .setState (.running "scale" 55),
          .setState (.running "detect" 70),
          .setState (.running "measure" 82),
          .setState (.running "map" 92),
          .setResult { pdf_path := path, pages := n, units_per_pixel := 1,
                       segments := 0,
                       summary := { symbols := [], lineal_feet := 0,
                                    area_sqft := 0 },
                       items := [] },
          .setState .succeeded ] ∧
      (resultsOf (pipelineEvents load path)).length = 1 ∧
      (statesOf (pipelineEvents load path)).count JobState.succeeded = 1 ∧
      (pipelineEvents load path).getLast? = some (.setState .succeeded)) := by
  rcases hl : load 0 with e | n
  · refine ⟨?_, ?_, ?_⟩
    · refine ⟨["tile-pyramid", "vectors", "ocr", "scale", "detect",
        "measure", "map"], ?_⟩
      simp [pipelineEvents, hl, runningStages, fixedStages]
    · simp [pipelineEvents, hl, runningPcts]
    · intro n hn
      exact absurd hn (by simp)
  · refine ⟨?_, ?_, ?_⟩
    · refine ⟨[], ?_⟩
      simp [pipelineEvents, hl, runningStages, fixedStages, infer_scale_empty]
    · simp [pipelineEvents, hl, runningPcts, infer_scale_empty]
    · intro m hm
      rw [Except.ok.injEq] at hm
      subst hm
      refine ⟨?_, ?_, ?_, ?_⟩
      · simp [pipelineEvents, hl, infer_scale_empty, map_to_line_items]
      · simp [pipelineEvents, hl, resultsOf, infer_scale_empty]
      · simp [pipelineEvents, hl, statesOf, infer_scale_empty]
      · simp [pipelineEvents, hl, infer_scale_empty]

/-- Witness for C4 on a successfully loading single-page document. -/
theorem C4_pipeline_order_witness :
    runningStages (pipelineEvents (fun _ => .ok 1) "plan.pdf") <+: fixedStages ∧
    (resultsOf (pipelineEvents (fun _ => .ok 1) "plan.pdf")).length = 1 := by
  have h := C4_pipeline_order (fun _ => .ok 1) "plan.pdf"
  exact ⟨h.1, (h.2.2 1 rfl).2.1⟩

/-- C5: if the document cannot be opened the job fails immediately with the
loader's reason, all later stages are skipped, no result is attached, and the
trace never reaches Succeeded; the reason is non-empty whenever the loader's
message is (the message itself comes from the external pdfium collaborator). -/
theorem C5_unopenable_document (load : ℕ → Except String ℕ) (path e : String)
    (h : load 0 = .error e) (hne : e ≠ "") :
    pipelineEvents load path
      = [.setState (.running "open" 5), .setState (.failed e)] ∧
    JobEvent.setState .succeeded ∉ pipelineEvents load path ∧
    resultsOf (pipelineEvents load path) = [] ∧
    (pipelineEvents load path).getLast? = some (.setState (.failed e)) ∧
    e ≠ "" := by
  refine ⟨by simp [pipelineEvents, h], ?_, ?_, ?_, hne⟩
  · simp [pipelineEvents, h]
  · simp [pipelineEvents, h, resultsOf]
  · simp [pipelineEvents, h]

/-- Witness for C5 with a concrete missing-file error. -/
theorem C5_unopenable_document_witness :
    pipelineEvents (fun _ => .error "No such file (os error 2)") "gone.pdf"
      = [.setState (.running "open" 5),
         .setState (.failed "No such file (os error 2)")] ∧
    JobEvent.setState .succeeded
      ∉ pipelineEvents (fun _ => .error "No such file (os error 2)") "gone.pdf" := by
  have h := C5_unopenable_document (fun _ => .error "No such file (os error 2)")
    "gone.pdf" "No such file (os error 2)" rfl (by decide)
  exact ⟨h.1, h.2.1⟩

/-- C10: the mapping engine passes its two totals through and always returns
empty items, and every successful run attaches a payload with
units_per_pixel 1, zero segments, zero totals, empty symbol tally and empty
items — independent of the document's content. -/
theorem C10_stub_payload (load : ℕ → Except String ℕ) (path : String) :
    (∀ (dets : List Det) (lineal area : ℚ),
      map_to_line_items dets lineal area
        = { summary := { symbols := [], lineal_feet := lineal,
                         area_sqft := area },
            items := [] }) ∧
    (JobEvent.setState .succeeded ∈ pipelineEvents load path →
      ∃ n, load 0 = .ok n ∧
        resultsOf (pipelineEvents load path)
          = [{ pdf_path := path, pages := n, units_per_pixel := 1,
               segments := 0,
               summary := { symbols := [], lineal_feet := 0, area_sqft := 0 },
               items := [] }]) := by
  constructor
  · intro dets lineal area
    rfl
  · intro hs
    rcases hl : load 0 with e | n
    · rw [pipelineEvents] at hs
      rw [hl] at hs
      simp at hs
    · exact ⟨n, rfl, by simp [pipelineEvents, hl, resultsOf,
        infer_scale_empty, map_to_line_items]⟩

/-- Witness for C10 on a two-page document. -/
theorem C10_stub_payload_witness :
    ∃ n, (fun _ => (.ok 2 : Except String ℕ)) 0 = .ok n ∧
      resultsOf (pipelineEvents (fun _ => .ok 2) "b.pdf")
        = [{ pdf_path := "b.pdf", pages := n, units_per_pixel := 1,
             segments := 0,
             summary := { symbols := [], lineal_feet := 0, area_sqft := 0 },
             items := [] }] :=
  (C10_stub_payload (fun _ => .ok 2) "b.pdf").2
    (by simp [pipelineEvents, infer_scale_empty])

/-! ## Claim theorems: status and result lookups -/

/-- `job_status` leaves the job table unchanged. -/
lemma job_status_snd (tbl : List (ℕ × Job)) (id : ℕ) :
    (job_status tbl id).2 = tbl := by
  unfold job_status
  split <;> rfl

/-- C9: unknown ids give the distinguished not-found value, a missing result
gives the empty default object, neither lookup mutates the table, and
repeated lookups return identical values. -/
theorem C9_lookup_contract (tbl : List (ℕ × Job)) (id : ℕ) :
    (job_status tbl id).2 = tbl ∧
    (job_result tbl id).2 = tbl ∧
    (tbl.lookup id = none → (job_status tbl id).1 = .notFound) ∧
    (tbl.lookup id = none → (job_result tbl id).1 = "\x7b\x7d") ∧
    (∀ j, tbl.lookup id = some j → j.result_json = none →
      (job_result tbl id).1 = "\x7b\x7d") ∧
    (job_status (job_status tbl id).2 id).1 = (job_status tbl id).1 ∧
    (job_result (job_result tbl id).2 id).1 = (job_result tbl id).1 := by
  refine ⟨job_status_snd tbl id, rfl, ?_, ?_, ?_, ?_, rfl⟩
  · intro h
    simp [job_status, h]
  · intro h
    simp [job_result, h]
  · intro j h hr
    simp [job_result, h, hr]
  · rw [job_status_snd]

/-- Witness for C9 at an empty table and unknown id. -/
theorem C9_lookup_contract_witness :
    (job_status [] 7).1 = .notFound ∧ (job_result [] 7).1 = "\x7b\x7d" :=
  ⟨(C9_lookup_contract [] 7).2.2.1 rfl,
   (C9_lookup_contract [] 7).2.2.2.1 rfl⟩

/-! ## Lemmas and claim theorems: adaptive tuning (raster.rs) -/

/-- The placeholder `GrayImage` always reports a single zero pixel, so the
standard deviation is 0 for every tile. -/
lemma grayscale_stats_std (g : GrayImage) : (grayscale_stats g).2 = 0 := by
  unfold grayscale_stats GrayImage.pixels
  norm_num [Real.sqrt_zero]

/-- Closed form of `auto_tune_params`: the contrast branch is never taken
(std is always 0 ≤ 50), the high clamp adds 1 to the raw low threshold, and
the truncated vote `30` survives the final `max` with 15. -/
lemma auto_tune_closed (g : GrayImage) (otsu : ℚ) :
    auto_tune_params g otsu
      = (max (otsu * 0.5) 1, max (otsu * 1.2) (otsu * 0.5 + 1), 30) := by
  unfold auto_tune_params
  dsimp only
  rw [grayscale_stats_std]
  rw [if_neg (by norm_num : ¬ (50 : ℝ) < 0)]
  simp only [mul_one]
  have h30 : ((30 : ℚ)).floor = (30 : ℤ) := by decide
  rw [h30]
  norm_num
  decide

/-- C3 (amended): with the placeholder image statistics every tile's standard
deviation is 0, so the contrast factor is 1; the low threshold is
`max(otsu * 0.5, 1)`; the high threshold is `max(otsu * 1.2, otsu * 0.5 + 1)`
— the `+ 1` clamp is applied to the raw, unclamped low threshold, not to the
returned low; the vote threshold is the truncation of `30 * factor`, clamped
to at least 15, i.e. 30. -/
theorem C3_auto_tune (g : GrayImage) (otsu : ℚ) :
    (grayscale_stats g).2 = 0 ∧
    auto_tune_params g otsu
      = (max (otsu * 0.5) 1, max (otsu * 1.2) (otsu * 0.5 + 1), 30) :=
  ⟨grayscale_stats_std g, auto_tune_closed g otsu⟩

/-- C3 counterexample: at `otsu = 1` the function returns high threshold
`3/2 = max(1.2, 0.5 + 1)`, whereas the claim's formula
`max(otsu * 1.2 * factor, low + 1)` — with `low` the returned (clamped) low
threshold `max(0.5, 1) = 1` — demands `max(1.2, 2) = 2`. -/
theorem C3_auto_tune_counterexample :
    auto_tune_params ⟨1, 1⟩ 1 = (1, 3 / 2, 30) ∧
    ¬ ((3 : ℚ) / 2
        = max ((1 : ℚ) * 1.2 * 1) (max ((1 : ℚ) * 0.5 * 1) 1 + 1)) := by
  constructor
  · rw [auto_tune_closed]
    norm_num [max_def]
  · norm_num [max_def]

/-! ## Lemmas and claim theorems: raster tiler (main.rs) -/

/-- One iteration of the tiling while-loop. -/
lemma scanStarts_step (c0 c1 step : ℚ) (h1 : 0 < step) (h2 : c0 < c1) :
    scanStarts c0 c1 step = c0 :: scanStarts (c0 + step) c1 step := by
  rw [scanStarts.eq_def, dif_pos ⟨h1, h2⟩]

/-- Loop exit. -/
lemma scanStarts_stop (c0 c1 step : ℚ) (h : ¬ (0 < step ∧ c0 < c1)) :
    scanStarts c0 c1 step = [] := by
  rw [scanStarts.eq_def, dif_neg h]

/-- Every visited origin lies in `[c0, c1)`. -/
lemma scanStarts_mem (c0 c1 step x : ℚ) :
    x ∈ scanStarts c0 c1 step → c0 ≤ x ∧ x < c1 := by
  induction c0, c1, step using scanStarts.induct with
  | case1 c0 c1 step h ih =>
    intro hx
    rw [scanStarts_step c0 c1 step h.1 h.2] at hx
    rcases List.mem_cons.mp hx with rfl | hx2
    · exact ⟨le_refl x, h.2⟩
    · have h2 := ih hx2
      exact ⟨by linarith [h.1, h2.1], h2.2⟩
  | case2 c0 c1 step h =>
    intro hx
    rw [scanStarts_stop c0 c1 step h] at hx
    simp at hx

/-- The visited origins are strictly increasing. -/
lemma scanStarts_chain (c0 c1 step : ℚ) :
    List.Chain' (fun a b => a < b) (scanStarts c0 c1 step) := by
  induction c0, c1, step using scanStarts.induct with
  | case1 c0 c1 step h ih =>
    rw [scanStarts_step c0 c1 step h.1 h.2]
    rw [List.chain'_cons']
    refine ⟨?_, ih⟩
    intro y hy
    have hmem := List.mem_of_mem_head? hy
    have hyb := scanStarts_mem _ _ _ _ hmem
    linarith [hyb.1, h.1]
  | case2 c0 c1 step h =>
    rw [scanStarts_stop c0 c1 step h]
    exact List.chain'_nil

/-- Every emitted tile stays inside the region and inside the clamped tile
size. -/
lemma prefetch_tiles_mem (x0 y0 x1 y1 tile : ℚ) (r : TileRect)
    (h : r ∈ prefetch_tiles x0 y0 x1 y1 tile) :
    x0 ≤ r.tx ∧ r.tx < x1 ∧ y0 ≤ r.ty ∧ r.ty < y1 ∧
    0 ≤ r.tw ∧ 0 ≤ r.th ∧ r.tx + r.tw ≤ x1 ∧ r.ty + r.th ≤ y1 ∧
    r.tw ≤ min (max tile 256) 1024 ∧ r.th ≤ min (max tile 256) 1024 := by
  unfold prefetch_tiles at h
  dsimp only at h
  rw [List.mem_flatMap] at h
  obtain ⟨ty, hty, hr⟩ := h
  rw [List.mem_map] at hr
  obtain ⟨tx, htx, rfl⟩ := hr
  have hy := scanStarts_mem _ _ _ _ hty
  have hx := scanStarts_mem _ _ _ _ htx
  have ht : (256 : ℚ) ≤ min (max tile 256) 1024 :=
    le_min (le_max_right tile 256) (by norm_num)
  dsimp only
  refine ⟨hx.1, hx.2, hy.1, hy.2, le_max_right _ _, le_max_right _ _,
    ?_, ?_, ?_, ?_⟩
  · have h1 : min (min (max tile 256) 1024) (x1 - tx) ≤ x1 - tx :=
      min_le_right _ _
    have h2 : max (min (min (max tile 256) 1024) (x1 - tx)) 0 ≤ x1 - tx :=
      max_le h1 (by linarith [hx.2])
    linarith
  · have h1 : min (min (max tile 256) 1024) (y1 - ty) ≤ y1 - ty :=
      min_le_right _ _
    have h2 : max (min (min (max tile 256) 1024) (y1 - ty)) 0 ≤ y1 - ty :=
      max_le h1 (by linarith [hy.2])
    linarith
  · exact max_le (min_le_left _ _) (by linarith [ht])
  · exact max_le (min_le_left _ _) (by linarith [ht])

/-- The emitted tile list is in raster-scan order: rows top to bottom,
columns left to right within each row. -/
lemma prefetch_tiles_pairwise (x0 y0 x1 y1 tile : ℚ) :
    List.Pairwise rasterOrder (prefetch_tiles x0 y0 x1 y1 tile) := by
  unfold prefetch_tiles
  dsimp only
  rw [List.pairwise_flatMap]
  constructor
  · intro ty hty
    rw [List.pairwise_map]
    have hpair : List.Pairwise (fun a b => a < b)
        (scanStarts x0 x1 (max (min (max tile 256) 1024 - 64) 256)) :=
      List.chain'_iff_pairwise.mp (scanStarts_chain _ _ _)
    exact hpair.imp fun hlt => Or.inr ⟨rfl, hlt⟩
  · have hpairy : List.Pairwise (fun a b => a < b)
        (scanStarts y0 y1 (max (min (max tile 256) 1024 - 64) 256)) :=
      List.chain'_iff_pairwise.mp (scanStarts_chain _ _ _)
    refine hpairy.imp ?_
    intro a b hab
    intro u hu v hv
    rw [List.mem_map] at hu hv
    obtain ⟨txu, _, rfl⟩ := hu
    obtain ⟨txv, _, rfl⟩ := hv
    exact Or.inl hab

/-- Concrete run of the loop on the region `[0,1000)²` with tile 512. -/
lemma prefetch_1000 : prefetch_tiles 0 0 1000 1000 512 = tiles1000 := by
  have ht : min (max (512 : ℚ) 256) 1024 = 512 := by
    norm_num [max_def, min_def]
  unfold prefetch_tiles
  dsimp only
  rw [ht]
  have hstep : max ((512 : ℚ) - 64) 256 = 448 := by norm_num [max_def]
  rw [hstep]
  have hscan : scanStarts 0 1000 448 = [0, 448, 896] := by
    rw [scanStarts_step 0 1000 448 (by norm_num) (by norm_num)]
    rw [scanStarts_step (0 + 448) 1000 448 (by norm_num) (by norm_num)]
    rw [scanStarts_step (0 + 448 + 448) 1000 448 (by norm_num) (by norm_num)]
    rw [scanStarts_stop (0 + 448 + 448 + 448) 1000 448 (by norm_num)]
    norm_num
  rw [hscan]
  simp only [List.flatMap_cons, List.flatMap_nil, List.map_cons, List.map_nil,
    List.append_nil, List.cons_append, List.nil_append, tiles1000]
  norm_num [max_def, min_def]

/-- The nine tiles cover every point of the region: no gaps. -/
lemma tiles1000_cover (px py : ℚ) (hx0 : 0 ≤ px) (hx1 : px < 1000)
    (hy0 : 0 ≤ py) (hy1 : py < 1000) :
    ∃ r ∈ tiles1000,
      r.tx ≤ px ∧ px < r.tx + r.tw ∧ r.ty ≤ py ∧ py < r.ty + r.th := by
  have hcol : ∀ c : ℚ, 0 ≤ c → c < 1000 →
      (0 ≤ c ∧ c < 512) ∨ (448 ≤ c ∧ c < 960) ∨ (896 ≤ c ∧ c < 1000) := by
    intro c h0 h1
    rcases lt_or_le c 512 with h | h
    · exact Or.inl ⟨h0, h⟩
    · rcases lt_or_le c 960 with h2 | h2
      · exact Or.inr (Or.inl ⟨by linarith, h2⟩)
      · exact Or.inr (Or.inr ⟨by linarith, h1⟩)
  rcases hcol px hx0 hx1 with hpx | hpx | hpx <;>
    rcases hcol py hy0 hy1 with hpy | hpy | hpy
  · exact ⟨⟨0, 0, 512, 512⟩, by simp [tiles1000],
      hpx.1, by dsimp only; linarith [hpx.2], hpy.1, by dsimp only; linarith [hpy.2]⟩
  · exact ⟨⟨0, 448, 512, 512⟩, by simp [tiles1000],
      hpx.1, by dsimp only; linarith [hpx.2], hpy.1, by dsimp only; linarith [hpy.2]⟩
  · exact ⟨⟨0, 896, 512, 104⟩, by simp [tiles1000],
      hpx.1, by dsimp only; linarith [hpx.2], hpy.1, by dsimp only; linarith [hpy.2]⟩
  · exact ⟨⟨448, 0, 512, 512⟩, by simp [tiles1000],
      hpx.1, by dsimp only; linarith [hpx.2], hpy.1, by dsimp only; linarith [hpy.2]⟩
  · exact ⟨⟨448, 448, 512, 512⟩, by simp [tiles1000],
      hpx.1, by dsimp only; linarith [hpx.2], hpy.1, by dsimp only; linarith [hpy.2]⟩
  · exact ⟨⟨448, 896, 512, 104⟩, by simp [tiles1000],
      hpx.1, by dsimp only; linarith [hpx.2], hpy.1, by dsimp only; linarith [hpy.2]⟩
  · exact ⟨⟨896, 0, 104, 512⟩, by simp [tiles1000],
      hpx.1, by dsimp only; linarith [hpx.2], hpy.1, by dsimp only; linarith [hpy.2]⟩
  · exact ⟨⟨896, 448, 104, 512⟩, by simp [tiles1000],
      hpx.1, by dsimp only; linarith [hpx.2], hpy.1, by dsimp only; linarith [hpy.2]⟩
  · exact ⟨⟨896, 896, 104, 104⟩, by simp [tiles1000],
      hpx.1, by dsimp only; linarith [hpx.2], hpy.1, by dsimp only; linarith [hpy.2]⟩

/-- Every one of the nine tiles stays inside the region: union is exact. -/
lemma tiles1000_inside (r : TileRect) (h : r ∈ tiles1000) :
    0 ≤ r.tx ∧ r.tx + r.tw ≤ 1000 ∧ 0 ≤ r.ty ∧ r.ty + r.th ≤ 1000 := by
  simp only [tiles1000, List.mem_cons, List.not_mem_nil, or_false] at h
  rcases h with rfl | rfl | rfl | rfl | rfl | rfl | rfl | rfl | rfl <;>
    norm_num

/-- Horizontally consecutive tiles (same row, next column origin) overlap by
exactly 64 px. -/
lemma tiles1000_overlap_right (k : ℕ) (hk : k ∈ [0, 1, 3, 4, 6, 7]) :
    (tiles1000.getD k ⟨0, 0, 0, 0⟩).tx + (tiles1000.getD k ⟨0, 0, 0, 0⟩).tw
      - (tiles1000.getD (k + 1) ⟨0, 0, 0, 0⟩).tx = 64 := by
  simp only [List.mem_cons, List.not_mem_nil, or_false] at hk
  rcases hk with rfl | rfl | rfl | rfl | rfl | rfl <;>
    · show _ = (64 : ℚ)
      norm_num [tiles1000]

/-- Vertically consecutive tiles (same column, next row) overlap by exactly
64 px. -/
lemma tiles1000_overlap_down (k : ℕ) (hk : k ∈ [0, 1, 2, 3, 4, 5]) :
    (tiles1000.getD k ⟨0, 0, 0, 0⟩).ty + (tiles1000.getD k ⟨0, 0, 0, 0⟩).th
      - (tiles1000.getD (k + 3) ⟨0, 0, 0, 0⟩).ty = 64 := by
  simp only [List.mem_cons, List.not_mem_nil, or_false] at hk
  rcases hk with rfl | rfl | rfl | rfl | rfl | rfl <;>
    · show _ = (64 : ℚ)
      norm_num [tiles1000]

/-- C6: the tiler emits tiles in raster-scan order, clamped to the region
(no out-of-bounds tiles) and to the clamped tile size; tiling
`[0,1000) × [0,1000)` with tile 512 (step `max(512-64,256) = 448`) yields
nine tiles whose union exactly covers the region with no gaps, consecutive
tiles in a row/column overlapping by exactly 64 px (including, here, at the
final row/column). -/
theorem C6_raster_tiler :
    (∀ x0 y0 x1 y1 tile : ℚ, ∀ r ∈ prefetch_tiles x0 y0 x1 y1 tile,
      x0 ≤ r.tx ∧ r.tx < x1 ∧ y0 ≤ r.ty ∧ r.ty < y1 ∧
      0 ≤ r.tw ∧ 0 ≤ r.th ∧ r.tx + r.tw ≤ x1 ∧ r.ty + r.th ≤ y1 ∧
      r.tw ≤ min (max tile 256) 1024 ∧ r.th ≤ min (max tile 256) 1024) ∧
    (∀ x0 y0 x1 y1 tile : ℚ,
      List.Pairwise rasterOrder (prefetch_tiles x0 y0 x1 y1 tile)) ∧
    prefetch_tiles 0 0 1000 1000 512 = tiles1000 ∧
    (∀ px py : ℚ, 0 ≤ px → px < 1000 → 0 ≤ py → py < 1000 →
      ∃ r ∈ tiles1000,
        r.tx ≤ px ∧ px < r.tx + r.tw ∧ r.ty ≤ py ∧ py < r.ty + r.th) ∧
    (∀ r ∈ tiles1000,
      0 ≤ r.tx ∧ r.tx + r.tw ≤ 1000 ∧ 0 ≤ r.ty ∧ r.ty + r.th ≤ 1000) ∧
    (∀ k ∈ [0, 1, 3, 4, 6, 7],
      (tiles1000.getD k ⟨0, 0, 0, 0⟩).tx + (tiles1000.getD k ⟨0, 0, 0, 0⟩).tw
        - (tiles1000.getD (k + 1) ⟨0, 0, 0, 0⟩).tx = 64) ∧
    (∀ k ∈ [0, 1, 2, 3, 4, 5],
      (tiles1000.getD k ⟨0, 0, 0, 0⟩).ty + (tiles1000.getD k ⟨0, 0, 0, 0⟩).th
        - (tiles1000.getD (k + 3) ⟨0, 0, 0, 0⟩).ty = 64) :=
  ⟨fun x0 y0 x1 y1 tile r h => prefetch_tiles_mem x0 y0 x1 y1 tile r h,
   fun x0 y0 x1 y1 tile => prefetch_tiles_pairwise x0 y0 x1 y1 tile,
   prefetch_1000,
   fun px py hx0 hx1 hy0 hy1 => tiles1000_cover px py hx0 hx1 hy0 hy1,
   fun r h => tiles1000_inside r h,
   fun k hk => tiles1000_overlap_right k hk,
   fun k hk => tiles1000_overlap_down k hk⟩

/-- Witness for C6: the first emitted tile of the 1000×1000 run satisfies the
region bounds, and the point (500, 500) is covered. -/
theorem C6_raster_tiler_witness :
    ((0 : ℚ) ≤ (⟨0, 0, 512, 512⟩ : TileRect).tx ∧
      (⟨0, 0, 512, 512⟩ : TileRect).tx < 1000 ∧
      (0 : ℚ) ≤ (⟨0, 0, 512, 512⟩ : TileRect).ty ∧
      (⟨0, 0, 512, 512⟩ : TileRect).ty < 1000 ∧
      0 ≤ (⟨0, 0, 512, 512⟩ : TileRect).tw ∧
      0 ≤ (⟨0, 0, 512, 512⟩ : TileRect).th ∧
      (⟨0, 0, 512, 512⟩ : TileRect).tx + (⟨0, 0, 512, 512⟩ : TileRect).tw ≤ 1000 ∧
      (⟨0, 0, 512, 512⟩ : TileRect).ty + (⟨0, 0, 512, 512⟩ : TileRect).th ≤ 1000 ∧
      (⟨0, 0, 512, 512⟩ : TileRect).tw ≤ min (max 512 256) 1024 ∧
      (⟨0, 0, 512, 512⟩ : TileRect).th ≤ min (max 512 256) 1024) ∧
    (∃ r ∈ tiles1000,
      r.tx ≤ (500 : ℚ) ∧ (500 : ℚ) < r.tx + r.tw ∧
      r.ty ≤ (500 : ℚ) ∧ (500 : ℚ) < r.ty + r.th) := by
  have h := C6_raster_tiler
  refine ⟨h.1 0 0 1000 1000 512 ⟨0, 0, 512, 512⟩ ?_,
    h.2.2.2.1 500 500 (by norm_num) (by norm_num) (by norm_num) (by norm_num)⟩
  rw [h.2.2.1]
  simp [tiles1000]

end SignX
